import Mathlib

set_option maxHeartbeats 1000000

/-!
Verification development for the LinkedEZ repository.

The repository drives LinkedIn outreach from voice commands.  Its pure
logic is shallowly embedded here:

* `parse_command` (voice_linkedin_assistant.py, lines 30-88): regular
  expression extraction of the people count, company and position from a
  free-text command.  The three concrete `re.search` calls are embedded
  through a small backtracking matcher `matchRE` / `searchPat` whose
  preference order (leftmost start, alternation left-first, greedy or
  lazy repetition) follows Python's `re` module on the five patterns the
  source uses.  `\d`, `\s` and `[A-Za-z0-9]` are modelled over their
  ASCII ranges.
* the tracker sink (spreadsheet_tracker.py): CSV/worksheet rows are lists
  of cell strings; single-cell updates use a total grid `Nat → Nat → String`.
  Fallible file/API writes take an explicit success oracle.
* the Flask handlers (web_app.py): request bodies become explicit
  structures, HTTP responses become `(success, status)` records, and the
  external automation agent becomes an `Except`-valued call oracle.
* the voice loop (voice_linkedin_assistant.py, lines 139-173): a step
  function over the states awaiting/confirming/executing/asking/done,
  consuming one environment response per step.
-/

namespace LinkedEZ

/-- Python `\s` character class, restricted to its ASCII members
(space, tab, newline, carriage return, vertical tab, form feed). -/
def isSpaceC (c : Char) : Bool :=
  c = ' ' || c = '\t' || c = '\n' || c = '\r' || c = '\x0b' || c = '\x0c'

/-- Python `\d` character class (ASCII digits). -/
def isDigitC (c : Char) : Bool := c.isDigit

/-- The character class `[A-Za-z0-9\s]` used by the company/position
patterns. -/
def isWordSp (c : Char) : Bool := c.isAlpha || c.isDigit || isSpaceC c

/-- Python `str.lower()` (ASCII model). -/
def lowerStr (cs : List Char) : List Char := cs.map Char.toLower

/-- Python `str.strip()` : drop whitespace from both ends. -/
def strip (cs : List Char) : List Char :=
  ((cs.dropWhile isSpaceC).reverse.dropWhile isSpaceC).reverse

/-- Python `int()` on a non-empty string of decimal digits. -/
def digitsToNat (ds : List Char) : Nat :=
  ds.foldl (fun a c => 10 * a + (c.toNat - 48)) 0

/-- The fragment of Python regular-expression syntax used by
`parse_command`: literals, a one-or-more repetition of a character class
(greedy when the flag is `false`, lazy when `true`), an optional greedy
group, alternation and concatenation. -/
inductive RE : Type where
  | eps : RE
  | lit : List Char → RE
  | pls : (Char → Bool) → Bool → RE
  | opt : RE → RE
  | alt : RE → RE → RE
  | seq : RE → RE → RE

/-- Declarative matching relation for `RE` (which strings a regex
denotes; the laziness flag is irrelevant to the denotation). -/
inductive REMatch : RE → List Char → Prop where
  | eps : REMatch .eps []
  | lit (l : List Char) : REMatch (.lit l) l
  | pls {p : Char → Bool} {lz : Bool} {cs : List Char} :
      cs ≠ [] → (∀ c ∈ cs, p c = true) → REMatch (.pls p lz) cs
  | optNone {r : RE} : REMatch (.opt r) []
  | optSome {r : RE} {cs : List Char} : REMatch r cs → REMatch (.opt r) cs
  | altL {r1 r2 : RE} {cs : List Char} : REMatch r1 cs → REMatch (.alt r1 r2) cs
  | altR {r1 r2 : RE} {cs : List Char} : REMatch r2 cs → REMatch (.alt r1 r2) cs
  | seq {r1 r2 : RE} {xs ys : List Char} :
      REMatch r1 xs → REMatch r2 ys → REMatch (.seq r1 r2) (xs ++ ys)

/-- Candidate lengths for a `+` repetition of a character class whose
maximal run has length `n`: `1..n`, shortest first when lazy, longest
first when greedy — the order Python's backtracking explores. -/
def capLens (n : Nat) (lz : Bool) : List Nat :=
  if lz then List.range' 1 n else (List.range' 1 n).reverse

/-- Backtracking matcher in continuation-passing style.  `matchRE r cs k`
tries to match `r` against a prefix of `cs`, exploring alternatives in
Python's preference order, and passes the remaining suffix to `k`. -/
def matchRE {α : Type} : RE → List Char → (List Char → Option α) → Option α
  | .eps, cs, k => k cs
  | .lit l, cs, k => if l.isPrefixOf cs then k (cs.drop l.length) else none
  | .pls p lz, cs, k =>
      (capLens (cs.takeWhile p).length lz).findSome? (fun m => k (cs.drop m))
  | .opt r, cs, k => (matchRE r cs k).orElse (fun _ => k cs)
  | .alt r1 r2, cs, k => (matchRE r1 cs k).orElse (fun _ => matchRE r2 cs k)
  | .seq r1 r2, cs, k => matchRE r1 cs (fun cs1 => matchRE r2 cs1 k)

/-- One of the source's search patterns: a prefix regex, a single
capturing group `(cls+)` (lazy or greedy), and a suffix regex. -/
structure CPattern where
  pre : RE
  cls : Char → Bool
  lz : Bool
  post : RE

/-- The whole regular expression of a pattern (capture group flattened). -/
def patRE (p : CPattern) : RE :=
  .seq p.pre (.seq (.pls p.cls p.lz) p.post)

/-- Try to match a pattern starting exactly at the head of `cs`,
returning the text of the capturing group of the preferred match. -/
def matchCapAt (pat : CPattern) (cs : List Char) : Option (List Char) :=
  matchRE pat.pre cs (fun cs1 =>
    (capLens (cs1.takeWhile pat.cls).length pat.lz).findSome? (fun m =>
      matchRE pat.post (cs1.drop m) (fun _ => some (cs1.take m))))

/-- Model of `re.search`: try every start position left to right, returning the
captured group of the leftmost match. -/
def searchPat (pat : CPattern) : List Char → Option (List Char)
  | [] => matchCapAt pat []
  | c :: cs => (matchCapAt pat (c :: cs)).orElse (fun _ => searchPat pat cs)

/-- A pattern matches starting at the head of `cs`. -/
def MatchesAt (pat : CPattern) (cs : List Char) : Prop :=
  ∃ ys zs, cs = ys ++ zs ∧ REMatch (patRE pat) ys

/-- A pattern matches somewhere inside `cs` (what `re.search ≠ None`
means, stated declaratively). -/
def Occurs (pat : CPattern) (cs : List Char) : Prop :=
  ∃ xs ys zs, cs = xs ++ ys ++ zs ∧ REMatch (patRE pat) ys

/-- The regex `\s+`. -/
def whitesRE : RE := .pls isSpaceC false

/-- Source pattern `(\d+)\s+people`. -/
def numPeoplePat : CPattern :=
  { pre := .eps, cls := isDigitC, lz := false,
    post := .seq whitesRE (.lit "people".toList) }

/-- Source pattern `reach out to (\d+)`. -/
def reachPat : CPattern :=
  { pre := .lit "reach out to ".toList, cls := isDigitC, lz := false,
    post := .eps }

/-- Source pattern `contact (\d+)`. -/
def contactPat : CPattern :=
  { pre := .lit "contact ".toList, cls := isDigitC, lz := false,
    post := .eps }

/-- The terminator `(?:\s+about|\s+regarding|\s+for)` of the company
patterns, alternatives in source order. -/
def companyTermRE : RE :=
  .alt (.seq whitesRE (.lit "about".toList))
    (.alt (.seq whitesRE (.lit "regarding".toList))
      (.seq whitesRE (.lit "for".toList)))

/-- Source pattern `from\s+([A-Za-z0-9\s]+?)(?:\s+about|\s+regarding|\s+for)`. -/
def fromPat : CPattern :=
  { pre := .seq (.lit "from".toList) whitesRE, cls := isWordSp, lz := true,
    post := companyTermRE }

/-- Source pattern `at\s+([A-Za-z0-9\s]+?)(?:\s+about|\s+regarding|\s+for)`. -/
def atPat : CPattern :=
  { pre := .seq (.lit "at".toList) whitesRE, cls := isWordSp, lz := true,
    post := companyTermRE }

/-- Source pattern `company\s+([A-Za-z0-9\s]+?)(?:\s+about|\s+regarding|\s+for)`. -/
def companyPat : CPattern :=
  { pre := .seq (.lit "company".toList) whitesRE, cls := isWordSp, lz := true,
    post := companyTermRE }

/-- The prefix `(?:for|regarding|about)\s+` shared by the position
patterns, alternatives in source order. -/
def positionLeadRE : RE :=
  .seq (.alt (.lit "for".toList)
          (.alt (.lit "regarding".toList) (.lit "about".toList)))
    whitesRE

/-- Source pattern
`(?:for|regarding|about)\s+(?:the\s+)?([A-Za-z0-9\s]+?)\s+position`. -/
def positionPat1 : CPattern :=
  { pre := .seq positionLeadRE (.opt (.seq (.lit "the".toList) whitesRE)),
    cls := isWordSp, lz := true,
    post := .seq whitesRE (.lit "position".toList) }

/-- Source pattern
`(?:for|regarding|about)\s+(?:a\s+)?([A-Za-z0-9\s]+?)\s+role`. -/
def positionPat2 : CPattern :=
  { pre := .seq positionLeadRE (.opt (.seq (.lit "a".toList) whitesRE)),
    cls := isWordSp, lz := true,
    post := .seq whitesRE (.lit "role".toList) }

/-- Source list `number_patterns` (voice_linkedin_assistant.py lines 44-48). -/
def number_patterns : List CPattern := [numPeoplePat, reachPat, contactPat]

/-- Source list `company_patterns` (lines 58-62). -/
def company_patterns : List CPattern := [fromPat, atPat, companyPat]

/-- Source list `position_patterns` (lines 72-75). -/
def position_patterns : List CPattern := [positionPat1, positionPat2]

/-- The source's `for pattern in patterns: match = re.search(...); if
match: ...; break` loop: the first pattern (in list order) whose search
succeeds wins. -/
def firstCapture (pats : List CPattern) (cs : List Char) : Option (List Char) :=
  pats.findSome? (fun p => searchPat p cs)

/-- Return value of `parse_command`. -/
structure ParsedCommand where
  company : Option (List Char)
  position : Option (List Char)
  num_people : Nat
  raw_command : List Char
  deriving DecidableEq

/-- Source method `LinkedInVoiceAssistant.parse_command` (voice_linkedin_assistant.py
lines 30-88): lowercase the command, extract the first count match
(default 10), the first company match and the first position match
(both stripped, `None` when nothing matches), and carry the raw text. -/
def parse_command (command : List Char) : ParsedCommand :=
  let command_lower := lowerStr command
  let num_people :=
    match firstCapture number_patterns command_lower with
    | some ds => digitsToNat ds
    | none => 10
  let company := (firstCapture company_patterns command_lower).map strip
  let position := (firstCapture position_patterns command_lower).map strip
  { company := company, position := position, num_people := num_people,
    raw_command := command }

/-- Some count pattern matches somewhere in the text (declaratively). -/
def CountOccurs (cs : List Char) : Prop :=
  Occurs numPeoplePat cs ∨ Occurs reachPat cs ∨ Occurs contactPat cs

/-- Some company pattern matches somewhere in the text. -/
def CompanyOccurs (cs : List Char) : Prop :=
  Occurs fromPat cs ∨ Occurs atPat cs ∨ Occurs companyPat cs

/-- Some position pattern matches somewhere in the text. -/
def PositionOccurs (cs : List Char) : Prop :=
  Occurs positionPat1 cs ∨ Occurs positionPat2 cs

/-! ### Tracker sink (spreadsheet_tracker.py) -/

/-- The fixed header row shared by `SpreadsheetTracker` and
`LocalSpreadsheetTracker` (lines 19-29 and 195-205). -/
def trackerHeaders : List String :=
  ["Timestamp", "Company Name", "Position Applied", "Contact Name",
   "Contact Title", "Connection Status", "Message Sent", "Response Status",
   "Notes"]

/-- An outreach record as passed to the tracker: a dictionary whose keys
may be absent (`record.get(key, default)` in the source). -/
structure OutreachRecord where
  timestamp : Option String := none
  company : Option String := none
  position : Option String := none
  name : Option String := none
  contact_title : Option String := none
  status : Option String := none
  message_sent : Option String := none
  response_status : Option String := none
  notes : Option String := none
  deriving DecidableEq

/-- The `row_data` list built from a record (lines 121-131 and 219-229);
`now` is the `datetime.now()` string used when no timestamp is given. -/
def row_data (now : String) (r : OutreachRecord) : List String :=
  [r.timestamp.getD now, r.company.getD "", r.position.getD "",
   r.name.getD "", r.contact_title.getD "", r.status.getD "Pending",
   r.message_sent.getD "Yes", r.response_status.getD "No Response",
   r.notes.getD ""]

/-- Source method `LocalSpreadsheetTracker.__init__` when the CSV file does not exist
yet (lines 206-213): the file holds exactly the header row. -/
def localTrackerInit : List (List String) := [trackerHeaders]

/-- Source method `LocalSpreadsheetTracker.add_outreach_record` (lines 215-239): append
one row to the CSV file and return `True`, or — when the file write
raises — leave the file unchanged and return `False`.  `writeOk` is the
oracle for whether the `open`/`write` succeeds. -/
def local_add_outreach_record (writeOk : Bool) (now : String)
    (rows : List (List String)) (r : OutreachRecord) :
    List (List String) × Bool :=
  if writeOk then (rows ++ [row_data now r], true) else (rows, false)

/-- The loop of `LocalSpreadsheetTracker.add_multiple_records` (line
243): every record is attempted in order, successes are counted.  `env i`
supplies the write outcome and the `datetime.now()` string of the `i`-th
attempt. -/
def local_add_multiple_go (env : Nat → Bool × String) (i : Nat)
    (rows : List (List String)) : List OutreachRecord →
    List (List String) × Nat
  | [] => (rows, 0)
  | r :: rs =>
      let step := local_add_outreach_record (env i).1 (env i).2 rows r
      let rest := local_add_multiple_go env (i + 1) step.1 rs
      (rest.1, (if step.2 then 1 else 0) + rest.2)

/-- Source method `LocalSpreadsheetTracker.add_multiple_records` (lines 241-245):
returns the new file contents, the printed `success_count`, and the
returned boolean `success_count == len(records)`. -/
def local_add_multiple_records (env : Nat → Bool × String)
    (rows : List (List String)) (records : List OutreachRecord) :
    List (List String) × Nat × Bool :=
  let run := local_add_multiple_go env 0 rows records
  (run.1, run.2, decide (run.2 = records.length))

/-- Source method `SpreadsheetTracker.add_outreach_record` (lines 109-139) on an
initialized worksheet, viewing the worksheet as its list of rows
(`append_row` appends one row); the API call may raise, which is caught
and reported as `False`. -/
def sheets_add_outreach_record (writeOk : Bool) (now : String)
    (rows : List (List String)) (r : OutreachRecord) :
    List (List String) × Bool :=
  if writeOk then (rows ++ [row_data now r], true) else (rows, false)

/-- The loop of `SpreadsheetTracker.add_multiple_records` (lines
152-155). -/
def sheets_add_multiple_go (env : Nat → Bool × String) (i : Nat)
    (rows : List (List String)) : List OutreachRecord →
    List (List String) × Nat
  | [] => (rows, 0)
  | r :: rs =>
      let step := sheets_add_outreach_record (env i).1 (env i).2 rows r
      let rest := sheets_add_multiple_go env (i + 1) step.1 rs
      (rest.1, (if step.2 then 1 else 0) + rest.2)

/-- Source method `SpreadsheetTracker.add_multiple_records` (lines 141-158) on an
initialized worksheet. -/
def sheets_add_multiple_records (env : Nat → Bool × String)
    (rows : List (List String)) (records : List OutreachRecord) :
    List (List String) × Nat × Bool :=
  let run := sheets_add_multiple_go env 0 rows records
  (run.1, run.2, decide (run.2 = records.length))

/-- A worksheet as a total grid of cells, addressed 1-based by row and
column as gspread does. -/
def Grid : Type := Nat → Nat → String

/-- Model of `worksheet.update_cell(row, col, value)`. -/
def update_cell (ws : Grid) (row col : Nat) (value : String) : Grid :=
  fun r c => if r = row ∧ c = col then value else ws r c

/-- Source method `SpreadsheetTracker.update_response_status` (lines 166-187) on an
initialized worksheet, success path: write `status` to column 8 of the
row, and — only when `notes` is non-empty (`if notes:`) — write `notes`
to column 9. -/
def update_response_status (ws : Grid) (row_number : Nat) (status : String)
    (notes : String) : Grid :=
  let ws1 := update_cell ws row_number 8 status
  if notes ≠ "" then update_cell ws1 row_number 9 notes else ws1

/-! ### Web application (web_app.py) -/

/-- A JSON value in the `num_people` field.  Python's
`isinstance(x, int)` accepts both JSON integers and JSON booleans
(`bool` is a subclass of `int`, `True` comparing as 1 and `False`
as 0); every other JSON value fails the check. -/
inductive JVal : Type where
  | jint : Int → JVal
  | jbool : Bool → JVal
  | jother : JVal
  deriving DecidableEq

/-- Python `isinstance(v, int)` together with the integer value used by the
subsequent comparisons. -/
def JVal.asInt? : JVal → Option Int
  | .jint n => some n
  | .jbool b => some (if b then 1 else 0)
  | .jother => none

/-- The JSON body of a `POST /api/execute` request; `none` models an
absent key (so that `data.get(key, default)` yields the default). -/
structure ExecBody where
  command : Option String := none
  company : Option String := none
  position : Option String := none
  num_people : Option JVal := none
  deriving DecidableEq

/-- Outcome of the validation phase of the `/api/execute` handler:
either an early JSON error response, or the dispatch of
`LinkedInTasker.execute_linkedin_outreach` with the validated
arguments. -/
inductive ExecOutcome : Type where
  | rejected : Bool → Nat → String → ExecOutcome
  | dispatched : String → String → Int → String → ExecOutcome
  deriving DecidableEq

/-- The `execute` handler of `POST /api/execute` (web_app.py lines
188-229) up to the point where the dispatcher is invoked: read fields
with defaults (`''`, `''`, `''`, `10`), reject empty company/position
with a 400, reject a non-int or out-of-range `num_people` with a 400,
otherwise dispatch. -/
def execute (b : ExecBody) : ExecOutcome :=
  let command := b.command.getD ""
  let company := b.company.getD ""
  let position := b.position.getD ""
  let num_people := b.num_people.getD (.jint 10)
  if company = "" ∨ position = "" then
    .rejected false 400 "Company and position are required"
  else
    match num_people.asInt? with
    | none => .rejected false 400 "Number of people must be between 1 and 50"
    | some n =>
        if n < 1 ∨ 50 < n then
          .rejected false 400 "Number of people must be between 1 and 50"
        else
          .dispatched company position n command

/-- What a completed run of the external automation agent reports
(`tasker.execute` result and the todo summary read from memory). -/
structure AgentRun where
  success : Bool
  completed : Nat
  deriving DecidableEq

/-- Return value of `LinkedInTasker.execute_linkedin_outreach`: either
the result dictionary of a completed run, or the
`{'success': False, 'error': str(e)}` dictionary built by the `except`
clause. -/
inductive OutreachResult : Type where
  | completedRun : Bool → Nat → Nat → String → String → String → OutreachResult
  | failed : Bool → String → OutreachResult
  deriving DecidableEq

/-- The placeholder record synthesized for contact `i` (web_app.py lines
149-160). -/
def taskerRecord (company position command : String) (i : Nat) :
    OutreachRecord :=
  { company := some company, position := some position,
    name := some ("Contact " ++ toString (i + 1)),
    contact_title := some "Professional",
    status := some "Connection Sent", message_sent := some "Yes",
    response_status := some "Pending",
    notes := some ("Voice command: " ++ command) }

/-- Source method `LinkedInTasker.execute_linkedin_outreach` (web_app.py lines
42-179).  `calls i` is the outcome of the `i`-th external
agent invocation (setup, `tasker.execute` and the summary reads,
collapsed into one `Except`); the source performs a single invocation,
`calls 0`.  On success the handler appends one placeholder record per
requested contact to the tracker and returns the result dictionary; any
exception is caught and returned as a failure dictionary with
`success=False` and the exception text. -/
def execute_linkedin_outreach (calls : Nat → Except String AgentRun)
    (writeEnv : Nat → Bool × String) (rows : List (List String))
    (company position : String) (num_people : Nat) (command : String)
    (output_file : String) : List (List String) × OutreachResult :=
  match calls 0 with
  | .error e => (rows, .failed false e)
  | .ok run =>
      let records :=
        (List.range num_people).map (taskerRecord company position command)
      let tracked := local_add_multiple_records writeEnv rows records
      (tracked.1,
       .completedRun run.success run.completed num_people company position
         output_file)

/-- A JSON response of the transcription endpoint, reduced to the
success flag and HTTP status code. -/
structure TResponse where
  success : Bool
  status : Nat
  deriving DecidableEq

/-- The `transcribe_audio` handler of `POST /api/transcribe` (web_app.py
lines 252-314).  `clientConfigured` models whether the module-level
ElevenLabs client was created; `audio` is the uploaded file's filename
(`none` when the form has no `audio` part); `convert` the outcome of the
external speech-to-text call. -/
def transcribe_audio (clientConfigured : Bool) (audio : Option String)
    (convert : Except String String) : TResponse :=
  if clientConfigured = false then { success := false, status := 500 }
  else
    match audio with
    | none => { success := false, status := 400 }
    | some filename =>
        if filename = "" then { success := false, status := 400 }
        else
          match convert with
          | .ok _ => { success := true, status := 200 }
          | .error _ => { success := false, status := 500 }

/-! ### Voice loop (voice_linkedin_assistant.py lines 139-173) -/

/-- Python's substring operator `w in s` on strings: `w` occurs
contiguously inside `s`. -/
def substrB (w : List Char) : List Char → Bool
  | [] => w.isEmpty
  | c :: cs => w.isPrefixOf (c :: cs) || substrB w cs

/-- The yes-words of `VoiceInterface.confirm` (voice_interface.py line
88). -/
def yes_words : List (List Char) :=
  ["yes".toList, "yeah".toList, "yep".toList, "sure".toList,
   "okay".toList, "ok".toList]

/-- Source method `VoiceInterface.confirm` (voice_interface.py lines 73-90) applied to
the transcription of the user's reply (`none` when nothing was
understood): `True` exactly when the lowercased reply contains one of
the yes-words as a substring. -/
def confirmOf (resp : Option (List Char)) : Bool :=
  match resp with
  | some r => yes_words.any (fun w => substrB w (lowerStr r))
  | none => false

/-- The exit keywords of the main loop (line 154). -/
def exit_words : List (List Char) :=
  ["exit".toList, "quit".toList, "stop".toList, "goodbye".toList]

/-- The check `any(word in command.lower() for word in [...])` (line 154). -/
def hasExitWord (cmd : List Char) : Bool :=
  exit_words.any (fun w => substrB w (lowerStr cmd))

/-- Python truthiness of an optional string (`not params['company']`):
`None` and the empty string are falsy. -/
def pyTruthy : Option (List Char) → Bool
  | none => false
  | some s => !s.isEmpty

/-- The states of the voice loop: at the top of the `while` waiting for
a command, asking the confirmation question inside
`execute_linkedin_outreach`, running the automation, asking "Would you
like to do anything else?", or exited. -/
inductive LoopState : Type where
  | awaiting : LoopState
  | confirming : ParsedCommand → LoopState
  | executing : ParsedCommand → LoopState
  | asking : LoopState
  | done : LoopState
  deriving DecidableEq

/-- The environment's responses consumed by one step of the loop:
`heard` is the transcription returned by `get_command` (used in state
`awaiting`), `confirmResp` the transcription of the reply to a yes/no
question (used in states `confirming` and `asking`). -/
structure LoopEnv where
  heard : Option (List Char) := none
  confirmResp : Option (List Char) := none

/-- One step of `LinkedInVoiceAssistant.run` (lines 144-173):

* `awaiting`: nothing understood → stay; an exit keyword → `done`;
  a parse with a falsy company or position → stay; otherwise ask for
  confirmation with the parsed parameters;
* `confirming`: a yes-answer starts the automation, anything else skips
  it (`execute_linkedin_outreach` returns early), after which the loop
  asks whether to continue;
* `executing`: the automation runs (success and caught error alike) and
  the loop asks whether to continue;
* `asking`: a yes-answer returns to the top of the loop, anything else
  breaks out. -/
def stepRun (s : LoopState) (e : LoopEnv) : LoopState :=
  match s with
  | .done => .done
  | .awaiting =>
      match e.heard with
      | none => .awaiting
      | some cmd =>
          if hasExitWord cmd then .done
          else
            let params := parse_command cmd
            if !pyTruthy params.company || !pyTruthy params.position then
              .awaiting
            else .confirming params
  | .confirming p => if confirmOf e.confirmResp then .executing p else .asking
  | .executing _ => .asking
  | .asking => if confirmOf e.confirmResp then .awaiting else .done

/-- Iterated steps of the loop under a stream of environment
responses. -/
def iterState (s : LoopState) (envs : Nat → LoopEnv) : Nat → LoopState
  | 0 => s
  | k + 1 => stepRun (iterState s envs k) (envs k)

/-- The exit condition of one step, as the specification states it: an
exit keyword in a transcribed command, or a negative answer to the
continue question. -/
def ExitNow (s : LoopState) (e : LoopEnv) : Prop :=
  (∃ cmd, s = .awaiting ∧ e.heard = some cmd ∧ hasExitWord cmd = true) ∨
  (s = .asking ∧ confirmOf e.confirmResp = false)

/-! ### Correctness of the regex matcher -/

theorem orElse_isSome_iff {α : Type} (o : Option α) (f : Unit → Option α) :
    (o.orElse f).isSome = true ↔ o.isSome = true ∨ (f ()).isSome = true := by
  cases o <;> simp [Option.orElse]

theorem orElse_eq_some_elim {α : Type} {o : Option α} {f : Unit → Option α}
    {v : α} (h : o.orElse f = some v) : o = some v ∨ f () = some v := by
  cases o with
  | none => right; simpa [Option.orElse] using h
  | some w => left; simpa [Option.orElse] using h

theorem findSome?_isSome_iff {β γ : Type} (f : β → Option γ) (l : List β) :
    (l.findSome? f).isSome = true ↔ ∃ b ∈ l, (f b).isSome = true := by
  induction l with
  | nil => simp [List.findSome?_nil]
  | cons a l ih =>
      cases h : f a with
      | none => simp [List.findSome?_cons, h, ih]
      | some v => simp [List.findSome?_cons, h]

theorem mem_capLens_iff {n m : Nat} {lz : Bool} :
    m ∈ capLens n lz ↔ 1 ≤ m ∧ m ≤ n := by
  cases lz <;> simp [capLens, List.mem_range'_1, List.mem_reverse] <;> omega

theorem all_take_of_le_takeWhile {p : Char → Bool} {cs : List Char} {m : Nat}
    (h : m ≤ (cs.takeWhile p).length) : ∀ c ∈ cs.take m, p c = true := by
  intro c hc
  have hsplit := List.takeWhile_append_dropWhile (p := p) (l := cs)
  have htake : cs.take m = (cs.takeWhile p).take m := by
    conv_lhs => rw [← hsplit]
    exact List.take_append_of_le_length h
  rw [htake] at hc
  exact List.mem_takeWhile_imp (List.take_subset m _ hc)

theorem takeWhile_length_of_all {p : Char → Bool} {xs ys : List Char}
    (h : ∀ c ∈ xs, p c = true) :
    xs.length ≤ ((xs ++ ys).takeWhile p).length := by
  induction xs with
  | nil => simp
  | cons c xs ih =>
      have hc : p c = true := h c (List.mem_cons_self c xs)
      have hrec := ih (fun d hd => h d (List.mem_cons_of_mem c hd))
      simp only [List.cons_append, List.takeWhile_cons, hc, if_true,
        List.length_cons]
      omega

theorem caplen_split_iff (p : Char → Bool) (lz : Bool) (cs : List Char)
    (P : List Char → List Char → Prop) :
    (∃ m ∈ capLens (cs.takeWhile p).length lz, P (cs.take m) (cs.drop m)) ↔
    ∃ xs ys, cs = xs ++ ys ∧ xs ≠ [] ∧ (∀ c ∈ xs, p c = true) ∧ P xs ys := by
  constructor
  · rintro ⟨m, hm, hP⟩
    obtain ⟨h1, h2⟩ := mem_capLens_iff.mp hm
    have hlen : (cs.takeWhile p).length ≤ cs.length :=
      (List.takeWhile_prefix p).length_le
    have hlen2 : (cs.take m).length = m := by rw [List.length_take]; omega
    refine ⟨cs.take m, cs.drop m, (List.take_append_drop m cs).symm, ?_,
      all_take_of_le_takeWhile h2, hP⟩
    intro hnil
    rw [hnil] at hlen2
    simp at hlen2
    omega
  · rintro ⟨xs, ys, rfl, hne, hall, hP⟩
    refine ⟨xs.length,
      mem_capLens_iff.mpr ⟨?_, takeWhile_length_of_all hall⟩, ?_⟩
    · have := List.length_pos.mpr hne; omega
    · rw [List.take_left, List.drop_left]; exact hP

theorem matchRE_isSome_iff {α : Type} (r : RE) :
    ∀ (cs : List Char) (k : List Char → Option α),
    (matchRE r cs k).isSome = true ↔
      ∃ xs ys, cs = xs ++ ys ∧ REMatch r xs ∧ (k ys).isSome = true := by
  induction r with
  | eps =>
      intro cs k
      simp only [matchRE]
      constructor
      · intro h; exact ⟨[], cs, rfl, .eps, h⟩
      · rintro ⟨xs, ys, rfl, hm, hk⟩
        cases hm; simpa using hk
  | lit l =>
      intro cs k
      simp only [matchRE]
      constructor
      · intro h
        by_cases hp : l.isPrefixOf cs
        · rw [if_pos hp] at h
          obtain ⟨t, rfl⟩ := List.isPrefixOf_iff_prefix.mp hp
          rw [List.drop_left] at h
          exact ⟨l, t, rfl, .lit l, h⟩
        · rw [if_neg hp] at h; simp at h
      · rintro ⟨xs, ys, rfl, hm, hk⟩
        cases hm
        have hp : l.isPrefixOf (l ++ ys) :=
          List.isPrefixOf_iff_prefix.mpr ⟨ys, rfl⟩
        rw [if_pos hp, List.drop_left]
        exact hk
  | pls p lz =>
      intro cs k
      simp only [matchRE]
      rw [findSome?_isSome_iff]
      constructor
      · intro h
        obtain ⟨xs, ys, heq, hne, hall, hP⟩ :=
          (caplen_split_iff p lz cs (fun _ ys => (k ys).isSome = true)).mp h
        exact ⟨xs, ys, heq, .pls hne hall, hP⟩
      · rintro ⟨xs, ys, heq, hm, hk⟩
        cases hm with
        | pls hne hall =>
            exact (caplen_split_iff p lz cs
              (fun _ ys => (k ys).isSome = true)).mpr ⟨xs, ys, heq, hne, hall, hk⟩
  | opt r ih =>
      intro cs k
      simp only [matchRE]
      rw [orElse_isSome_iff, ih]
      constructor
      · rintro (⟨xs, ys, heq, hm, hk⟩ | h)
        · exact ⟨xs, ys, heq, .optSome hm, hk⟩
        · exact ⟨[], cs, rfl, .optNone, h⟩
      · rintro ⟨xs, ys, heq, hm, hk⟩
        cases hm with
        | optNone =>
            right
            rw [heq]
            simpa using hk
        | optSome hm' => exact Or.inl ⟨xs, ys, heq, hm', hk⟩
  | alt r1 r2 ih1 ih2 =>
      intro cs k
      simp only [matchRE]
      rw [orElse_isSome_iff, ih1, ih2]
      constructor
      · rintro (⟨xs, ys, heq, hm, hk⟩ | ⟨xs, ys, heq, hm, hk⟩)
        · exact ⟨xs, ys, heq, .altL hm, hk⟩
        · exact ⟨xs, ys, heq, .altR hm, hk⟩
      · rintro ⟨xs, ys, heq, hm, hk⟩
        cases hm with
        | altL hm' => exact Or.inl ⟨xs, ys, heq, hm', hk⟩
        | altR hm' => exact Or.inr ⟨xs, ys, heq, hm', hk⟩
  | seq r1 r2 ih1 ih2 =>
      intro cs k
      simp only [matchRE]
      rw [ih1]
      constructor
      · rintro ⟨xs, ys, rfl, hm1, hk⟩
        rw [ih2] at hk
        obtain ⟨as, bs, rfl, hm2, hk2⟩ := hk
        exact ⟨xs ++ as, bs, by rw [List.append_assoc], .seq hm1 hm2, hk2⟩
      · rintro ⟨xs, ys, rfl, hm, hk⟩
        cases hm with
        | seq hm1 hm2 =>
            rename_i as bs
            refine ⟨as, bs ++ ys, ?_, hm1, ?_⟩
            · rw [List.append_assoc]
            · rw [ih2]
              exact ⟨bs, ys, rfl, hm2, hk⟩

theorem matchCapAt_isSome_iff (pat : CPattern) (cs : List Char) :
    (matchCapAt pat cs).isSome = true ↔ MatchesAt pat cs := by
  unfold matchCapAt MatchesAt patRE
  rw [matchRE_isSome_iff]
  constructor
  · rintro ⟨xs, ys, rfl, hpre, hk⟩
    have hk' : ((capLens (ys.takeWhile pat.cls).length pat.lz).findSome?
        (fun m => matchRE pat.post (ys.drop m)
          (fun _ => some (ys.take m)))).isSome = true := hk
    rw [findSome?_isSome_iff] at hk'
    obtain ⟨mid, rest, heq, hne, hall, hpost⟩ :=
      (caplen_split_iff pat.cls pat.lz ys
        (fun xs2 ys2 =>
          (matchRE pat.post ys2 (fun _ => some xs2)).isSome = true)).mp hk'
    rw [matchRE_isSome_iff] at hpost
    obtain ⟨bs, rest2, rfl, hm2, _⟩ := hpost
    refine ⟨xs ++ (mid ++ bs), rest2, ?_, ?_⟩
    · rw [heq]; simp [List.append_assoc]
    · exact .seq hpre (.seq (.pls hne hall) hm2)
  · rintro ⟨ys, zs, rfl, hm⟩
    cases hm with
    | seq hpre hrest =>
        rename_i xs ws
        cases hrest with
        | seq hmid hpost =>
            rename_i mid bs
            cases hmid with
            | pls hne hall =>
                refine ⟨xs, mid ++ bs ++ zs, ?_, hpre, ?_⟩
                · simp [List.append_assoc]
                · show ((capLens ((mid ++ bs ++ zs).takeWhile pat.cls).length
                      pat.lz).findSome? (fun m =>
                        matchRE pat.post ((mid ++ bs ++ zs).drop m)
                          (fun _ => some ((mid ++ bs ++ zs).take m)))).isSome
                      = true
                  rw [findSome?_isSome_iff]
                  refine (caplen_split_iff pat.cls pat.lz (mid ++ bs ++ zs)
                    (fun xs2 ys2 =>
                      (matchRE pat.post ys2
                        (fun _ => some xs2)).isSome = true)).mpr
                    ⟨mid, bs ++ zs, by simp [List.append_assoc], hne, hall, ?_⟩
                  rw [matchRE_isSome_iff]
                  exact ⟨bs, zs, rfl, hpost, by simp⟩

theorem searchPat_isSome_iff (pat : CPattern) (cs : List Char) :
    (searchPat pat cs).isSome = true ↔ Occurs pat cs := by
  induction cs with
  | nil =>
      simp only [searchPat]
      rw [matchCapAt_isSome_iff]
      constructor
      · rintro ⟨ys, zs, h, hm⟩
        exact ⟨[], ys, zs, by simpa using h, hm⟩
      · rintro ⟨xs, ys, zs, h, hm⟩
        have h' := h.symm
        simp only [List.append_eq_nil] at h'
        obtain ⟨⟨hxs, hys⟩, hzs⟩ := h'
        subst hys; subst hzs
        exact ⟨[], [], rfl, hm⟩
  | cons c cs ih =>
      simp only [searchPat]
      rw [orElse_isSome_iff, matchCapAt_isSome_iff, ih]
      constructor
      · rintro (⟨ys, zs, heq, hm⟩ | ⟨xs, ys, zs, heq, hm⟩)
        · exact ⟨[], ys, zs, by simpa using heq, hm⟩
        · exact ⟨c :: xs, ys, zs, by simp [heq], hm⟩
      · rintro ⟨xs, ys, zs, heq, hm⟩
        cases xs with
        | nil => left; exact ⟨ys, zs, by simpa using heq, hm⟩
        | cons x xs' =>
            right
            simp only [List.cons_append, List.cons.injEq] at heq
            exact ⟨xs', ys, zs, heq.2, hm⟩

theorem matchRE_some_imp {α : Type} (P : α → Prop) (r : RE) :
    ∀ (cs : List Char) (k : List Char → Option α),
      (∀ ys v, k ys = some v → P v) →
      ∀ v, matchRE r cs k = some v → P v := by
  induction r with
  | eps => intro cs k hk v h; exact hk cs v h
  | lit l =>
      intro cs k hk v h
      simp only [matchRE] at h
      split at h
      · exact hk _ _ h
      · exact Option.noConfusion h
  | pls p lz =>
      intro cs k hk v h
      simp only [matchRE] at h
      obtain ⟨m, _, hfm⟩ := List.exists_of_findSome?_eq_some h
      exact hk _ _ hfm
  | opt r ih =>
      intro cs k hk v h
      simp only [matchRE] at h
      rcases orElse_eq_some_elim h with h' | h'
      · exact ih cs k hk v h'
      · exact hk _ _ h'
  | alt r1 r2 ih1 ih2 =>
      intro cs k hk v h
      simp only [matchRE] at h
      rcases orElse_eq_some_elim h with h' | h'
      · exact ih1 cs k hk v h'
      · exact ih2 cs k hk v h'
  | seq r1 r2 ih1 ih2 =>
      intro cs k hk v h
      simp only [matchRE] at h
      exact ih1 cs _ (fun ys w hw => ih2 ys k hk w hw) v h

theorem matchCapAt_cls {pat : CPattern} {cs ds : List Char}
    (h : matchCapAt pat cs = some ds) :
    ds ≠ [] ∧ ∀ c ∈ ds, pat.cls c = true := by
  unfold matchCapAt at h
  refine matchRE_some_imp
    (fun ds => ds ≠ [] ∧ ∀ c ∈ ds, pat.cls c = true) pat.pre cs _ ?_ ds h
  intro ys v hy
  obtain ⟨m, hm, hfm⟩ := List.exists_of_findSome?_eq_some hy
  obtain ⟨h1, h2⟩ := mem_capLens_iff.mp hm
  have hv : v = ys.take m := by
    refine matchRE_some_imp (fun v => v = ys.take m) pat.post _ _ ?_ v hfm
    intro zs w hw
    exact (Option.some.inj hw).symm
  subst hv
  have hlen : (ys.takeWhile pat.cls).length ≤ ys.length :=
    (List.takeWhile_prefix pat.cls).length_le
  have hlen2 : (ys.take m).length = m := by rw [List.length_take]; omega
  refine ⟨?_, all_take_of_le_takeWhile h2⟩
  intro hnil
  rw [hnil] at hlen2
  simp at hlen2
  omega

theorem searchPat_cls {pat : CPattern} {cs ds : List Char}
    (h : searchPat pat cs = some ds) :
    ds ≠ [] ∧ ∀ c ∈ ds, pat.cls c = true := by
  induction cs with
  | nil => exact matchCapAt_cls h
  | cons c cs ih =>
      simp only [searchPat] at h
      rcases orElse_eq_some_elim h with h' | h'
      · exact matchCapAt_cls h'
      · exact ih h'

/-! ### First-match-wins pattern lists -/

theorem firstCapture_nil (cs : List Char) : firstCapture [] cs = none := rfl

theorem firstCapture_cons (p : CPattern) (ps : List CPattern) (cs : List Char) :
    firstCapture (p :: ps) cs =
      match searchPat p cs with
      | some ds => some ds
      | none => firstCapture ps cs := by
  cases h : searchPat p cs <;> simp [firstCapture, List.findSome?_cons, h]

theorem firstCapture_three (p1 p2 p3 : CPattern) (cs : List Char) :
    (firstCapture [p1, p2, p3] cs = none ↔
      ¬ (Occurs p1 cs ∨ Occurs p2 cs ∨ Occurs p3 cs)) ∧
    ((Occurs p1 cs ∨ Occurs p2 cs ∨ Occurs p3 cs) →
      ∃ cap, firstCapture [p1, p2, p3] cs = some cap ∧
        ((Occurs p1 cs ∧ searchPat p1 cs = some cap) ∨
         (¬ Occurs p1 cs ∧ Occurs p2 cs ∧ searchPat p2 cs = some cap) ∨
         (¬ Occurs p1 cs ∧ ¬ Occurs p2 cs ∧ Occurs p3 cs ∧
            searchPat p3 cs = some cap))) := by
  have e1 := searchPat_isSome_iff p1 cs
  have e2 := searchPat_isSome_iff p2 cs
  have e3 := searchPat_isSome_iff p3 cs
  cases h1 : searchPat p1 cs with
  | some ds =>
      have hocc1 : Occurs p1 cs := e1.mp (by simp [h1])
      constructor
      · constructor
        · intro hnone
          simp only [firstCapture_cons, h1] at hnone
          exact Option.noConfusion hnone
        · intro hno; exact absurd (Or.inl hocc1) hno
      · intro _
        refine ⟨ds, ?_, Or.inl ⟨hocc1, rfl⟩⟩
        simp only [firstCapture_cons, h1]
  | none =>
      have hnocc1 : ¬ Occurs p1 cs := by rw [← e1]; simp [h1]
      cases h2 : searchPat p2 cs with
      | some ds =>
          have hocc2 : Occurs p2 cs := e2.mp (by simp [h2])
          constructor
          · constructor
            · intro hnone
              simp only [firstCapture_cons, h1, h2] at hnone
              exact Option.noConfusion hnone
            · intro hno; exact absurd (Or.inr (Or.inl hocc2)) hno
          · intro _
            refine ⟨ds, ?_, Or.inr (Or.inl ⟨hnocc1, hocc2, rfl⟩)⟩
            simp only [firstCapture_cons, h1, h2]
      | none =>
          have hnocc2 : ¬ Occurs p2 cs := by rw [← e2]; simp [h2]
          cases h3 : searchPat p3 cs with
          | some ds =>
              have hocc3 : Occurs p3 cs := e3.mp (by simp [h3])
              constructor
              · constructor
                · intro hnone
                  simp only [firstCapture_cons, h1, h2, h3] at hnone
                  exact Option.noConfusion hnone
                · intro hno; exact absurd (Or.inr (Or.inr hocc3)) hno
              · intro _
                refine ⟨ds, ?_, Or.inr (Or.inr ⟨hnocc1, hnocc2, hocc3, rfl⟩)⟩
                simp only [firstCapture_cons, h1, h2, h3]
          | none =>
              have hnocc3 : ¬ Occurs p3 cs := by rw [← e3]; simp [h3]
              constructor
              · constructor
                · intro _
                  rintro (h | h | h)
                  · exact hnocc1 h
                  · exact hnocc2 h
                  · exact hnocc3 h
                · intro _
                  simp only [firstCapture_cons, h1, h2, h3, firstCapture_nil]
              · rintro (h | h | h)
                · exact absurd h hnocc1
                · exact absurd h hnocc2
                · exact absurd h hnocc3

theorem firstCapture_two (p1 p2 : CPattern) (cs : List Char) :
    (firstCapture [p1, p2] cs = none ↔
      ¬ (Occurs p1 cs ∨ Occurs p2 cs)) ∧
    ((Occurs p1 cs ∨ Occurs p2 cs) →
      ∃ cap, firstCapture [p1, p2] cs = some cap ∧
        ((Occurs p1 cs ∧ searchPat p1 cs = some cap) ∨
         (¬ Occurs p1 cs ∧ Occurs p2 cs ∧ searchPat p2 cs = some cap))) := by
  have e1 := searchPat_isSome_iff p1 cs
  have e2 := searchPat_isSome_iff p2 cs
  cases h1 : searchPat p1 cs with
  | some ds =>
      have hocc1 : Occurs p1 cs := e1.mp (by simp [h1])
      constructor
      · constructor
        · intro hnone
          simp only [firstCapture_cons, h1] at hnone
          exact Option.noConfusion hnone
        · intro hno; exact absurd (Or.inl hocc1) hno
      · intro _
        refine ⟨ds, ?_, Or.inl ⟨hocc1, rfl⟩⟩
        simp only [firstCapture_cons, h1]
  | none =>
      have hnocc1 : ¬ Occurs p1 cs := by rw [← e1]; simp [h1]
      cases h2 : searchPat p2 cs with
      | some ds =>
          have hocc2 : Occurs p2 cs := e2.mp (by simp [h2])
          constructor
          · constructor
            · intro hnone
              simp only [firstCapture_cons, h1, h2] at hnone
              exact Option.noConfusion hnone
            · intro hno; exact absurd (Or.inr hocc2) hno
          · intro _
            refine ⟨ds, ?_, Or.inr ⟨hnocc1, hocc2, rfl⟩⟩
            simp only [firstCapture_cons, h1, h2]
      | none =>
          have hnocc2 : ¬ Occurs p2 cs := by rw [← e2]; simp [h2]
          constructor
          · constructor
            · intro _
              rintro (h | h)
              · exact hnocc1 h
              · exact hnocc2 h
            · intro _
              simp only [firstCapture_cons, h1, h2, firstCapture_nil]
          · rintro (h | h)
            · exact absurd h hnocc1
            · exact absurd h hnocc2

theorem countOccurs_iff (cs : List Char) :
    CountOccurs cs ↔ ((searchPat numPeoplePat cs).isSome
      || (searchPat reachPat cs).isSome
      || (searchPat contactPat cs).isSome) = true := by
  unfold CountOccurs
  rw [← searchPat_isSome_iff, ← searchPat_isSome_iff, ← searchPat_isSome_iff]
  simp [Bool.or_eq_true, or_assoc]

theorem companyOccurs_iff (cs : List Char) :
    CompanyOccurs cs ↔ ((searchPat fromPat cs).isSome
      || (searchPat atPat cs).isSome
      || (searchPat companyPat cs).isSome) = true := by
  unfold CompanyOccurs
  rw [← searchPat_isSome_iff, ← searchPat_isSome_iff, ← searchPat_isSome_iff]
  simp [Bool.or_eq_true, or_assoc]

theorem positionOccurs_iff (cs : List Char) :
    PositionOccurs cs ↔ ((searchPat positionPat1 cs).isSome
      || (searchPat positionPat2 cs).isSome) = true := by
  unfold PositionOccurs
  rw [← searchPat_isSome_iff, ← searchPat_isSome_iff]
  simp [Bool.or_eq_true]

/-! ### Claims about the command parser -/

/-- C1: for every input text in which one of the count patterns matches
the lowercased text (`(\d+)\s+people`, `reach out to (\d+)`,
`contact (\d+)`), `parse_command` returns the captured integer of the
first matching pattern (pattern-list order) as `num_people`; for every
input in which no count pattern matches, `num_people` is 10. -/
theorem C1_num_people (command : List Char) :
    (CountOccurs (lowerStr command) →
      ∃ ds, ds ≠ [] ∧ (∀ c ∈ ds, c.isDigit = true) ∧
        (parse_command command).num_people = digitsToNat ds ∧
        ((Occurs numPeoplePat (lowerStr command) ∧
            searchPat numPeoplePat (lowerStr command) = some ds) ∨
         (¬ Occurs numPeoplePat (lowerStr command) ∧
            Occurs reachPat (lowerStr command) ∧
            searchPat reachPat (lowerStr command) = some ds) ∨
         (¬ Occurs numPeoplePat (lowerStr command) ∧
            ¬ Occurs reachPat (lowerStr command) ∧
            Occurs contactPat (lowerStr command) ∧
            searchPat contactPat (lowerStr command) = some ds))) ∧
    (¬ CountOccurs (lowerStr command) →
      (parse_command command).num_people = 10) := by
  have hfc := firstCapture_three numPeoplePat reachPat contactPat
    (lowerStr command)
  constructor
  · intro hocc
    obtain ⟨cap, hcap, hwhich⟩ := hfc.2 hocc
    have hnum : (parse_command command).num_people = digitsToNat cap := by
      show (match firstCapture number_patterns (lowerStr command) with
            | some ds => digitsToNat ds
            | none => 10) = digitsToNat cap
      rw [show number_patterns = [numPeoplePat, reachPat, contactPat] from rfl,
        hcap]
    have hcls : cap ≠ [] ∧ ∀ c ∈ cap, isDigitC c = true := by
      rcases hwhich with ⟨_, hs⟩ | ⟨_, _, hs⟩ | ⟨_, _, _, hs⟩ <;>
        exact searchPat_cls hs
    exact ⟨cap, hcls.1, hcls.2, hnum, hwhich⟩
  · intro hno
    have hnone := hfc.1.mpr hno
    show (match firstCapture number_patterns (lowerStr command) with
          | some ds => digitsToNat ds
          | none => 10) = 10
    rw [show number_patterns = [numPeoplePat, reachPat, contactPat] from rfl,
      hnone]

theorem C1_num_people_witness :
    ((parse_command "hello there".toList).num_people = 10) ∧
    (∃ ds, (parse_command "reach out to 7 people".toList).num_people
        = digitsToNat ds ∧
      searchPat numPeoplePat (lowerStr "reach out to 7 people".toList)
        = some ds) := by
  constructor
  · exact (C1_num_people "hello there".toList).2 (fun h =>
      absurd ((countOccurs_iff _).mp h) (by decide))
  · obtain ⟨ds, _, _, hnum, hwhich⟩ :=
      (C1_num_people "reach out to 7 people".toList).1
        ((countOccurs_iff _).mpr (by decide))
    rcases hwhich with ⟨_, hs⟩ | ⟨hno, _, _⟩ | ⟨hno, _, _, _⟩
    · exact ⟨ds, hnum, hs⟩
    · exact absurd ((searchPat_isSome_iff _ _).mp (by decide)) hno
    · exact absurd ((searchPat_isSome_iff _ _).mp (by decide)) hno

/-- C8: `parse_command` tries the ordered pattern lists for company and
for position, taking per field the (whitespace-stripped) captured group
of the first pattern that matches; the company field is `None` exactly
when no company pattern matches, the position field is `None` exactly
when no position pattern matches, and the result carries the original
command text.  (As a Lean function the operation has no side
effects.) -/
theorem C8_fields (command : List Char) :
    (parse_command command).raw_command = command ∧
    ((parse_command command).company = none ↔
      ¬ CompanyOccurs (lowerStr command)) ∧
    (CompanyOccurs (lowerStr command) →
      ∃ cap, (parse_command command).company = some (strip cap) ∧
        ((Occurs fromPat (lowerStr command) ∧
            searchPat fromPat (lowerStr command) = some cap) ∨
         (¬ Occurs fromPat (lowerStr command) ∧
            Occurs atPat (lowerStr command) ∧
            searchPat atPat (lowerStr command) = some cap) ∨
         (¬ Occurs fromPat (lowerStr command) ∧
            ¬ Occurs atPat (lowerStr command) ∧
            Occurs companyPat (lowerStr command) ∧
            searchPat companyPat (lowerStr command) = some cap))) ∧
    ((parse_command command).position = none ↔
      ¬ PositionOccurs (lowerStr command)) ∧
    (PositionOccurs (lowerStr command) →
      ∃ cap, (parse_command command).position = some (strip cap) ∧
        ((Occurs positionPat1 (lowerStr command) ∧
            searchPat positionPat1 (lowerStr command) = some cap) ∨
         (¬ Occurs positionPat1 (lowerStr command) ∧
            Occurs positionPat2 (lowerStr command) ∧
            searchPat positionPat2 (lowerStr command) = some cap))) := by
  have hc := firstCapture_three fromPat atPat companyPat (lowerStr command)
  have hp := firstCapture_two positionPat1 positionPat2 (lowerStr command)
  have hcomp : (parse_command command).company
      = (firstCapture company_patterns (lowerStr command)).map strip := rfl
  have hpos : (parse_command command).position
      = (firstCapture position_patterns (lowerStr command)).map strip := rfl
  refine ⟨rfl, ?_, ?_, ?_, ?_⟩
  · rw [hcomp]
    constructor
    · intro h
      refine hc.1.mp ?_
      cases hfc : firstCapture company_patterns (lowerStr command) with
      | none => exact hfc
      | some v => rw [hfc] at h; exact Option.noConfusion h
    · intro h
      have hnone := hc.1.mpr h
      rw [show company_patterns = [fromPat, atPat, companyPat] from rfl, hnone]
      rfl
  · intro hocc
    obtain ⟨cap, hcap, hwhich⟩ := hc.2 hocc
    refine ⟨cap, ?_, hwhich⟩
    rw [hcomp, show company_patterns = [fromPat, atPat, companyPat] from rfl,
      hcap]
    rfl
  · rw [hpos]
    constructor
    · intro h
      refine hp.1.mp ?_
      cases hfp : firstCapture position_patterns (lowerStr command) with
      | none => exact hfp
      | some v => rw [hfp] at h; exact Option.noConfusion h
    · intro h
      have hnone := hp.1.mpr h
      rw [show position_patterns = [positionPat1, positionPat2] from rfl, hnone]
      rfl
  · intro hocc
    obtain ⟨cap, hcap, hwhich⟩ := hp.2 hocc
    refine ⟨cap, ?_, hwhich⟩
    rw [hpos, show position_patterns = [positionPat1, positionPat2] from rfl,
      hcap]
    rfl

theorem C8_fields_witness :
    (parse_command "from google about the data science position".toList).raw_command
        = "from google about the data science position".toList ∧
    (∃ cap,
      (parse_command "from google about the data science position".toList).company
        = some (strip cap)) ∧
    (parse_command "hello".toList).company = none := by
  refine ⟨(C8_fields _).1, ?_, ?_⟩
  · obtain ⟨cap, hcap, _⟩ :=
      (C8_fields "from google about the data science position".toList).2.2.1
        ((companyOccurs_iff _).mpr (by decide))
    exact ⟨cap, hcap⟩
  · exact ((C8_fields "hello".toList).2.1).mpr
      (fun h => absurd ((companyOccurs_iff _).mp h) (by decide))

/-! ### Claims about the /api/execute validation -/

/-- C2: a body with non-empty company and position and an integer
`num_people` in `[1, 50]` passes validation and is dispatched with those
arguments; a body whose `num_people` is an integer outside `[1, 50]`
(in particular 0 or 51), or whose company or position is missing or
empty, is answered `success=false`, HTTP 400, and nothing is
dispatched. -/
theorem C2_execute_validation (b : ExecBody) :
    (∀ n : Int, b.company.getD "" ≠ "" → b.position.getD "" ≠ "" →
      b.num_people = some (.jint n) → 1 ≤ n → n ≤ 50 →
      execute b = .dispatched (b.company.getD "") (b.position.getD "") n
        (b.command.getD "")) ∧
    (∀ n : Int, b.num_people = some (.jint n) → (n < 1 ∨ 50 < n) →
      ∃ msg, execute b = .rejected false 400 msg) ∧
    (b.company.getD "" = "" ∨ b.position.getD "" = "" →
      ∃ msg, execute b = .rejected false 400 msg) := by
  refine ⟨?_, ?_, ?_⟩
  · intro n hc hp hnp h1 h50
    simp only [execute, hnp, Option.getD_some, JVal.asInt?]
    rw [if_neg (not_or.mpr ⟨hc, hp⟩), if_neg (by omega)]
  · intro n hnp hout
    by_cases hce : b.company.getD "" = "" ∨ b.position.getD "" = ""
    · refine ⟨"Company and position are required", ?_⟩
      simp only [execute]
      rw [if_pos hce]
    · refine ⟨"Number of people must be between 1 and 50", ?_⟩
      simp only [execute, hnp, Option.getD_some, JVal.asInt?]
      rw [if_neg hce, if_pos hout]
  · intro hce
    refine ⟨"Company and position are required", ?_⟩
    simp only [execute]
    rw [if_pos hce]

theorem C2_execute_validation_witness :
    (execute { command := some "cmd", company := some "Acme",
               position := some "Engineer", num_people := some (.jint 5) }
      = .dispatched "Acme" "Engineer" 5 "cmd") ∧
    (∃ msg, execute { company := some "Acme", position := some "Engineer",
                      num_people := some (.jint 0) }
      = .rejected false 400 msg) ∧
    (∃ msg, execute { company := some "Acme", position := some "Engineer",
                      num_people := some (.jint 51) }
      = .rejected false 400 msg) ∧
    (∃ msg, execute { position := some "Engineer",
                      num_people := some (.jint 5) }
      = .rejected false 400 msg) := by
  refine ⟨?_, ?_, ?_, ?_⟩
  · exact (C2_execute_validation _).1 5 (by decide) (by decide) rfl
      (by omega) (by omega)
  · exact (C2_execute_validation _).2.1 0 rfl (Or.inl (by omega))
  · exact (C2_execute_validation _).2.1 51 rfl (Or.inr (by omega))
  · exact (C2_execute_validation _).2.2 (Or.inl rfl)

/-- C10: a body whose JSON omits `num_people` but has non-empty company
and position is not rejected: `data.get('num_people', 10)` defaults the
count to 10 and the dispatcher is invoked with `num_people = 10`. -/
theorem C10_default_num (b : ExecBody) (hnp : b.num_people = none)
    (hc : b.company.getD "" ≠ "") (hp : b.position.getD "" ≠ "") :
    execute b = .dispatched (b.company.getD "") (b.position.getD "") 10
      (b.command.getD "") := by
  simp only [execute, hnp, Option.getD_none, JVal.asInt?]
  rw [if_neg (not_or.mpr ⟨hc, hp⟩), if_neg (by omega)]

theorem C10_default_num_witness :
    execute { command := some "reach out", company := some "Acme",
              position := some "Engineer" }
      = .dispatched "Acme" "Engineer" 10 "reach out" :=
  C10_default_num _ rfl (by decide) (by decide)

/-! ### Claims about the tracker sink -/

theorem local_add_multiple_go_all_ok (env : Nat → String) :
    ∀ (recs : List OutreachRecord) (i : Nat) (rows : List (List String)),
      ((local_add_multiple_go (fun j => (true, env j)) i rows recs).1.length
          = rows.length + recs.length) ∧
      (∀ m, m < rows.length →
        (local_add_multiple_go (fun j => (true, env j)) i rows recs).1[m]?
          = rows[m]?) ∧
      (∀ k r, recs[k]? = some r →
        (local_add_multiple_go (fun j => (true, env j)) i rows recs).1[rows.length + k]?
          = some (row_data (env (i + k)) r)) ∧
      (∀ row ∈ (local_add_multiple_go (fun j => (true, env j)) i rows recs).1,
        row ∈ rows ∨ ∃ j r, row = row_data (env j) r) := by
  intro recs
  induction recs with
  | nil =>
      intro i rows
      refine ⟨by simp [local_add_multiple_go], ?_, ?_, ?_⟩
      · intro m _; rfl
      · intro k r hk; simp at hk
      · intro row hrow; exact Or.inl hrow
  | cons r rs ih =>
      intro i rows
      have hstep : local_add_multiple_go (fun j => (true, env j)) i rows (r :: rs)
          = (local_add_multiple_go (fun j => (true, env j)) (i + 1)
              (rows ++ [row_data (env i) r]) rs |>.1,
             1 + (local_add_multiple_go (fun j => (true, env j)) (i + 1)
              (rows ++ [row_data (env i) r]) rs |>.2)) := by
        simp [local_add_multiple_go, local_add_outreach_record]
      obtain ⟨ih1, ih2, ih3, ih4⟩ := ih (i + 1) (rows ++ [row_data (env i) r])
      refine ⟨?_, ?_, ?_, ?_⟩
      · rw [hstep]
        simp only [ih1, List.length_append, List.length_cons,
          List.length_nil]
        omega
      · intro m hm
        rw [hstep]
        have := ih2 m (by simp; omega)
        rw [this]
        exact List.getElem?_append_left hm
      · intro k s hk
        cases k with
        | zero =>
            simp only [List.getElem?_cons_zero, Option.some.injEq] at hk
            subst hk
            rw [hstep]
            simp only [Nat.add_zero]
            have := ih2 rows.length (by simp)
            rw [this, List.getElem?_append_right (Nat.le_refl _)]
            simp
        | succ k' =>
            simp only [List.getElem?_cons_succ] at hk
            rw [hstep]
            have := ih3 k' s hk
            have harith : (rows ++ [row_data (env i) r]).length + k'
                = rows.length + (k' + 1) := by simp; omega
            rw [harith] at this
            have harith2 : i + 1 + k' = i + (k' + 1) := by omega
            rw [harith2] at this
            exact this
      · intro row hrow
        rw [hstep] at hrow
        rcases ih4 row hrow with hmem | hnew
        · rcases List.mem_append.mp hmem with h | h
          · exact Or.inl h
          · simp only [List.mem_singleton] at h
            exact Or.inr ⟨i, r, h⟩
        · exact Or.inr hnew

/-- C3: appending N outreach records (every file write succeeding) to a
freshly created local tracker yields exactly N+1 rows: the fixed
9-column header row first, then the N record rows in append order, each
row having 9 cells in the schema order of `row_data`. -/
theorem C3_append_rows (env : Nat → String) (recs : List OutreachRecord) :
    ((local_add_multiple_records (fun i => (true, env i))
        localTrackerInit recs).1.length = recs.length + 1) ∧
    ((local_add_multiple_records (fun i => (true, env i))
        localTrackerInit recs).1[0]? = some trackerHeaders) ∧
    (trackerHeaders.length = 9) ∧
    (∀ k r, recs[k]? = some r →
      (local_add_multiple_records (fun i => (true, env i))
        localTrackerInit recs).1[k + 1]? = some (row_data (env k) r)) ∧
    (∀ row ∈ (local_add_multiple_records (fun i => (true, env i))
        localTrackerInit recs).1, row.length = 9) := by
  obtain ⟨h1, h2, h3, h4⟩ :=
    local_add_multiple_go_all_ok env recs 0 localTrackerInit
  have hrecords :
      (local_add_multiple_records (fun i => (true, env i))
        localTrackerInit recs).1
      = (local_add_multiple_go (fun i => (true, env i)) 0
          localTrackerInit recs).1 := rfl
  refine ⟨?_, ?_, rfl, ?_, ?_⟩
  · rw [hrecords, h1]; simp [localTrackerInit]; omega
  · rw [hrecords, h2 0 (by simp [localTrackerInit])]; rfl
  · intro k r hk
    rw [hrecords]
    have := h3 k r hk
    simpa [localTrackerInit, Nat.add_comm] using this
  · intro row hrow
    rw [hrecords] at hrow
    rcases h4 row hrow with hmem | ⟨j, r, rfl⟩
    · simp only [localTrackerInit, List.mem_singleton] at hmem
      subst hmem; rfl
    · rfl

theorem C3_append_rows_witness :
    ((local_add_multiple_records (fun _ => (true, "2024-01-01 00:00:00"))
        localTrackerInit
        [{ company := some "Acme" }, { name := some "Bob" }]).1.length = 3) ∧
    ((local_add_multiple_records (fun _ => (true, "2024-01-01 00:00:00"))
        localTrackerInit
        [{ company := some "Acme" }, { name := some "Bob" }]).1[0]?
      = some trackerHeaders) ∧
    ((local_add_multiple_records (fun _ => (true, "2024-01-01 00:00:00"))
        localTrackerInit
        [{ company := some "Acme" }, { name := some "Bob" }]).1[1]?
      = some (row_data "2024-01-01 00:00:00" { company := some "Acme" })) := by
  have h := C3_append_rows (fun _ => "2024-01-01 00:00:00")
    [{ company := some "Acme" }, { name := some "Bob" }]
  exact ⟨h.1, h.2.1, h.2.2.2.1 0 { company := some "Acme" } rfl⟩

theorem local_add_multiple_go_count (env : Nat → Bool × String) :
    ∀ (recs : List OutreachRecord) (i : Nat) (rows : List (List String)),
      (local_add_multiple_go env i rows recs).2
        = (List.range' i recs.length).countP (fun j => (env j).1) := by
  intro recs
  induction recs with
  | nil => intro i rows; simp [local_add_multiple_go]
  | cons r rs ih =>
      intro i rows
      simp only [local_add_multiple_go, local_add_outreach_record,
        List.length_cons, List.range'_succ, List.countP_cons]
      cases henv : (env i).1 <;>
        simp [henv, ih (i + 1), Nat.add_comm]

theorem sheets_add_multiple_go_count (env : Nat → Bool × String) :
    ∀ (recs : List OutreachRecord) (i : Nat) (rows : List (List String)),
      (sheets_add_multiple_go env i rows recs).2
        = (List.range' i recs.length).countP (fun j => (env j).1) := by
  intro recs
  induction recs with
  | nil => intro i rows; simp [sheets_add_multiple_go]
  | cons r rs ih =>
      intro i rows
      simp only [sheets_add_multiple_go, sheets_add_outreach_record,
        List.length_cons, List.range'_succ, List.countP_cons]
      cases henv : (env i).1 <;>
        simp [henv, ih (i + 1), Nat.add_comm]

/-- C4: both trackers' `add_multiple_records` attempt the write of every
record: the success count equals the number of indices `i < N` whose
write succeeds — an early failure does not stop later records from being
counted (or written) — the printed report carries that count, and the
returned boolean is `success_count == N`. -/
theorem C4_partial_batch (env : Nat → Bool × String)
    (rows : List (List String)) (records : List OutreachRecord) :
    ((local_add_multiple_records env rows records).2.1
        = (List.range records.length).countP (fun j => (env j).1)) ∧
    ((local_add_multiple_records env rows records).2.2
        = decide ((List.range records.length).countP (fun j => (env j).1)
            = records.length)) ∧
    ((sheets_add_multiple_records env rows records).2.1
        = (List.range records.length).countP (fun j => (env j).1)) ∧
    ((sheets_add_multiple_records env rows records).2.2
        = decide ((List.range records.length).countP (fun j => (env j).1)
            = records.length)) := by
  have hl := local_add_multiple_go_count env records 0 rows
  have hs := sheets_add_multiple_go_count env records 0 rows
  rw [List.range_eq_range']
  exact ⟨hl, by simp [local_add_multiple_records, hl], hs,
    by simp [sheets_add_multiple_records, hs]⟩

/-- C5 counterexample: with empty `notes` the source skips the Notes
cell (`if notes:`), so on a worksheet whose row 2 Notes cell holds
`"old"`, `update_response_status(2, "Replied", "")` does not set the
Notes cell to `""` — the claim's "sets exactly the two cells" fails for
the empty-notes instance. -/
theorem C5_counterexample :
    ¬ ((update_response_status (fun _ _ => "old") 2 "Replied" "") 2 8
          = "Replied" ∧
       (update_response_status (fun _ _ => "old") 2 "Replied" "") 2 9
          = "") := by
  decide

/-- C5 (amended): `update_response_status(R, s, n)` writes `s` to the
Response Status cell (column 8) of row R; it writes `n` to the Notes
cell (column 9) exactly when `n` is non-empty, leaving the old Notes
value when `n` is empty; every cell outside columns 8 and 9 of row R is
unchanged. -/
theorem C5_update_cells (ws : Grid) (row_number : Nat)
    (status notes : String) :
    ((update_response_status ws row_number status notes) row_number 8
        = status) ∧
    (notes ≠ "" →
      (update_response_status ws row_number status notes) row_number 9
        = notes) ∧
    (notes = "" →
      (update_response_status ws row_number status notes) row_number 9
        = ws row_number 9) ∧
    (∀ r c, r ≠ row_number ∨ (c ≠ 8 ∧ c ≠ 9) →
      (update_response_status ws row_number status notes) r c = ws r c) := by
  refine ⟨?_, ?_, ?_, ?_⟩
  · by_cases hn : notes = "" <;>
      simp [update_response_status, update_cell, hn]
  · intro hn
    simp [update_response_status, update_cell, hn]
  · intro hn
    simp [update_response_status, update_cell, hn]
  · intro r c hrc
    rcases hrc with h | ⟨h8, h9⟩
    · by_cases hn : notes = "" <;>
        simp [update_response_status, update_cell, hn, h]
    · by_cases hn : notes = "" <;>
        simp [update_response_status, update_cell, hn, h8, h9]

theorem C5_update_cells_witness :
    ((update_response_status (fun _ _ => "x") 3 "Replied" "note") 3 8
        = "Replied") ∧
    ((update_response_status (fun _ _ => "x") 3 "Replied" "note") 3 9
        = "note") ∧
    ((update_response_status (fun _ _ => "x") 3 "Replied" "note") 1 2
        = "x") := by
  have h := C5_update_cells (fun _ _ => "x") 3 "Replied" "note"
  exact ⟨h.1, h.2.1 (by decide), h.2.2.2 1 2 (Or.inl (by decide))⟩

/-! ### Claims about the outreach dispatcher and transcription -/

/-- C6: when the external automation-agent invocation raises (for
example because no agent credentials are configured), the dispatcher
returns the caught-failure dictionary `success=False` with the
exception's message, leaves the tracker untouched, and consults the
external call exactly once — no retry, no propagated exception. -/
theorem C6_outreach_error (calls : Nat → Except String AgentRun)
    (writeEnv : Nat → Bool × String) (rows : List (List String))
    (company position : String) (num_people : Nat) (command : String)
    (output_file : String) :
    (∀ msg, calls 0 = .error msg →
      execute_linkedin_outreach calls writeEnv rows company position
        num_people command output_file = (rows, .failed false msg)) ∧
    (∀ calls2 : Nat → Except String AgentRun, calls2 0 = calls 0 →
      execute_linkedin_outreach calls2 writeEnv rows company position
        num_people command output_file
        = execute_linkedin_outreach calls writeEnv rows company position
            num_people command output_file) := by
  constructor
  · intro msg h
    simp [execute_linkedin_outreach, h]
  · intro calls2 h
    simp only [execute_linkedin_outreach, h]

theorem C6_outreach_error_witness :
    execute_linkedin_outreach (fun _ => .error "OAGI_API_KEY is not set")
      (fun _ => (true, "t")) [] "Acme" "Engineer" 3 "cmd" "out.html"
      = ([], .failed false "OAGI_API_KEY is not set") :=
  (C6_outreach_error (fun _ => .error "OAGI_API_KEY is not set")
    (fun _ => (true, "t")) [] "Acme" "Engineer" 3 "cmd" "out.html").1 _ rfl

/-- C7 counterexample: when the ElevenLabs client is not configured the
handler answers 500 before looking at the uploaded file, so a request
with no audio part is not answered 400. -/
theorem C7_counterexample :
    ¬ ((transcribe_audio false none (.ok "text")).success = false ∧
       (transcribe_audio false none (.ok "text")).status = 400) := by
  decide

/-- C7 (amended): when the ElevenLabs client is configured, every
request whose form has no `audio` part or whose audio file has an empty
filename is answered `success=false`, HTTP 400; when the client is not
configured, the handler answers `success=false`, HTTP 500 instead. -/
theorem C7_transcribe_400 (audio : Option String)
    (convert : Except String String) :
    ((audio = none ∨ audio = some "") →
      transcribe_audio true audio convert
        = { success := false, status := 400 }) ∧
    (transcribe_audio false audio convert
        = { success := false, status := 500 }) := by
  constructor
  · rintro (rfl | rfl) <;> simp [transcribe_audio]
  · simp [transcribe_audio]

theorem C7_transcribe_400_witness :
    transcribe_audio true none (.ok "hi")
      = { success := false, status := 400 } :=
  (C7_transcribe_400 none (.ok "hi")).1 (Or.inl rfl)

/-! ### Claim about the voice loop -/

/-- C9: one step of the voice loop reaches the terminal state exactly
when, awaiting a command, the transcribed command contains one of the
exit keywords, or, asking whether to continue, the answer is negative;
and from every non-terminal state the loop is back at `awaiting` (or has
exited) within three steps. -/
theorem C9_loop (s : LoopState) (envs : Nat → LoopEnv) (hs : s ≠ .done) :
    (stepRun s (envs 0) = .done ↔ ExitNow s (envs 0)) ∧
    (∃ k, k ≤ 3 ∧ (iterState s envs k = .awaiting ∨
      iterState s envs k = .done)) := by
  constructor
  · cases s with
    | done => exact absurd rfl hs
    | awaiting =>
        cases hh : (envs 0).heard with
        | none => simp [stepRun, hh, ExitNow]
        | some cmd =>
            by_cases hw : hasExitWord cmd = true
            · constructor
              · intro _; exact Or.inl ⟨cmd, rfl, hh, hw⟩
              · intro _; simp [stepRun, hh, hw]
            · constructor
              · intro hstep
                simp only [stepRun, hh] at hstep
                rw [if_neg hw] at hstep
                split at hstep <;> exact LoopState.noConfusion hstep
              · rintro (⟨cmd2, _, hh2, hw2⟩ | ⟨h, _⟩)
                · rw [hh] at hh2
                  cases hh2
                  exact absurd hw2 hw
                · exact LoopState.noConfusion h
    | confirming p =>
        constructor
        · intro hstep
          simp only [stepRun] at hstep
          split at hstep <;> exact LoopState.noConfusion hstep
        · rintro (⟨_, h, _⟩ | ⟨h, _⟩) <;> exact LoopState.noConfusion h
    | executing p =>
        constructor
        · intro hstep
          simp only [stepRun] at hstep
          exact LoopState.noConfusion hstep
        · rintro (⟨_, h, _⟩ | ⟨h, _⟩) <;> exact LoopState.noConfusion h
    | asking =>
        by_cases hc : confirmOf (envs 0).confirmResp = true
        · constructor
          · intro hstep
            simp [stepRun, hc] at hstep
          · rintro (⟨_, h, _⟩ | ⟨_, h⟩)
            · exact LoopState.noConfusion h
            · rw [hc] at h; exact Bool.noConfusion h
        · rw [Bool.not_eq_true] at hc
          constructor
          · intro _; exact Or.inr ⟨rfl, hc⟩
          · intro _; simp [stepRun, hc]
  · cases s with
    | done => exact ⟨0, by omega, Or.inr rfl⟩
    | awaiting => exact ⟨0, by omega, Or.inl rfl⟩
    | asking =>
        refine ⟨1, by omega, ?_⟩
        by_cases hc : confirmOf (envs 0).confirmResp = true
        · exact Or.inl (by simp [iterState, stepRun, hc])
        · rw [Bool.not_eq_true] at hc
          exact Or.inr (by simp [iterState, stepRun, hc])
    | executing p =>
        refine ⟨2, by omega, ?_⟩
        by_cases hc : confirmOf (envs 1).confirmResp = true
        · exact Or.inl (by simp [iterState, stepRun, hc])
        · rw [Bool.not_eq_true] at hc
          exact Or.inr (by simp [iterState, stepRun, hc])
    | confirming p =>
        by_cases hc0 : confirmOf (envs 0).confirmResp = true
        · refine ⟨3, by omega, ?_⟩
          by_cases hc2 : confirmOf (envs 2).confirmResp = true
          · exact Or.inl (by simp [iterState, stepRun, hc0, hc2])
          · rw [Bool.not_eq_true] at hc2
            exact Or.inr (by simp [iterState, stepRun, hc0, hc2])
        · rw [Bool.not_eq_true] at hc0
          refine ⟨2, by omega, ?_⟩
          by_cases hc1 : confirmOf (envs 1).confirmResp = true
          · exact Or.inl (by simp [iterState, stepRun, hc0, hc1])
          · rw [Bool.not_eq_true] at hc1
            exact Or.inr (by simp [iterState, stepRun, hc0, hc1])

theorem C9_loop_witness :
    (stepRun .asking { heard := none, confirmResp := none } = .done) ∧
    (∃ k, k ≤ 3 ∧
      (iterState .asking (fun _ => { heard := none, confirmResp := none }) k
          = .awaiting ∨
       iterState .asking (fun _ => { heard := none, confirmResp := none }) k
          = .done)) := by
  have h := C9_loop .asking
    (fun _ => { heard := none, confirmResp := none })
    (fun hcontra => LoopState.noConfusion hcontra)
  exact ⟨h.1.mpr (Or.inr ⟨rfl, rfl⟩), h.2⟩

end LinkedEZ
